import Mathlib

/-!
Shallow embedding of the german-flashcards-pwa core (src/db.js, src/app.js):
the spaced-repetition scheduling engine (`applySRS`), the session queue
builder (`buildStudyQueue`), the study-session grading step (`gradeCurrent`)
and the deck/card store operations (`deleteDeck`, `addCard`, `updateCard`,
`deleteCard`, `putCard`).

Modelling conventions:
* JS numbers are embedded as `ℚ` (timestamps in milliseconds, interval days,
  ease factors) or `ℕ` (counters).
* `Date.now()` calls made inside a function are modelled by an explicit
  `now : ℚ` argument that stands for the value the clock read returned;
  likewise `uid()` results are passed in as an explicit fresh id.
* An IndexedDB object store keyed by `id` is a `List` of records; `get` is
  `List.find?` on the key, `put` replaces the record with the same key or
  appends, `delete` removes records with the key, and a readwrite
  transaction either commits (all its effects) or aborts (none), which we
  model by a `commit : Bool` flag where a claim is about atomicity.
* `Math.random()`-driven choices in the Fisher–Yates loop are modelled by a
  function `g : ℕ → ℕ`; the source computes `j = floor(random * (i+1))`,
  an arbitrary value in `[0, i]`, embedded as `g i % (i + 1)`.
-/

/-- ReviewState: `srs` field of a card (db.js schema comment, `defaultSRS`). -/
structure SRS where
  due : ℚ
  intervalDays : ℚ
  ease : ℚ
  reps : ℕ
  lapses : ℕ
  deriving DecidableEq, Repr

/-- Card record (db.js schema: `cards` object store).  The source field
`example` is a Lean keyword, hence the guillemets. -/
structure Card where
  id : String
  deckId : String
  english : String
  german : String
  article : String
  plural : String
  «example» : String
  notes : String
  createdAt : ℚ
  srs : SRS
  deriving DecidableEq, Repr

/-- Deck record (db.js schema: `decks` object store). -/
structure Deck where
  id : String
  name : String
  createdAt : ℚ
  deriving DecidableEq, Repr

/-- The two object stores of `germanFlashcardsDB`. -/
structure Store where
  decks : List Deck
  cards : List Card
  deriving DecidableEq, Repr

/-- Grades accepted by `applySRS` (app.js: "again" | "good" | "easy"). -/
inductive Grade where
  | again
  | good
  | easy
  deriving DecidableEq, Repr

/-- Error taxonomy of the spec (§7); db.js signals NotFound by throwing
`Error("Deck not found")` / `Error("Card not found")`. -/
inductive DBError where
  | validationError
  | notFound
  | transactionFailure
  deriving DecidableEq, Repr

/-- The `fields` argument of `addCard`/`updateCard` (app.js builds it from
the form inputs); `article`/`plural`/`example`/`notes` may be absent, which
the source handles with `(fields.x || "")`. -/
structure Fields where
  english : String
  german : String
  article : Option String
  plural : Option String
  «example» : Option String
  notes : Option String
  deriving DecidableEq, Repr

/-- Character-list core of JS `String.prototype.trim`: strip whitespace
from both ends.  (Lean's own `String.trim` is equivalent but does not
reduce inside the kernel, so witnesses could not evaluate it.) -/
def trimList (l : List Char) : List Char :=
  (((l.dropWhile Char.isWhitespace).reverse).dropWhile Char.isWhitespace).reverse

/-- JS `s.trim()`. -/
def trim (s : String) : String := ⟨trimList s.data⟩

/-- app.js line 113: `clamp(n, min, max) = Math.max(min, Math.min(max, n))`. -/
def clamp (n lo hi : ℚ) : ℚ := max lo (min hi n)

/-- Milliseconds in a day, as written in app.js: `24*60*60*1000`. -/
def msPerDay : ℚ := 24 * 60 * 60 * 1000

/-- app.js lines 114–144, `applySRS(card, grade)`.  The source mutates
`card.srs` in place and reads `Date.now()` internally; `now` is the value
that clock read returned, and the result is the card after the mutation. -/
def applySRS (now : ℚ) (card : Card) (grade : Grade) : Card :=
  let s := card.srs
  match grade with
  | .again =>
      let ease := clamp (s.ease - 0.20) 1.3 3.0
      let intervalDays : ℚ := 0.25
      { card with srs :=
        { lapses := s.lapses + 1
          reps := 0
          ease := ease
          intervalDays := intervalDays
          due := now + intervalDays * msPerDay } }
  | .good =>
      let ease := clamp (s.ease + 0.05) 1.3 3.0
      let intervalDays := if s.reps = 0 then (1 : ℚ) else max 1 (s.intervalDays * ease)
      { card with srs :=
        { lapses := s.lapses
          reps := s.reps + 1
          ease := ease
          intervalDays := intervalDays
          due := now + intervalDays * msPerDay } }
  | .easy =>
      let ease := clamp (s.ease + 0.15) 1.3 3.0
      let intervalDays := if s.reps = 0 then (2 : ℚ) else max 2 (s.intervalDays * ease * 1.3)
      { card with srs :=
        { lapses := s.lapses
          reps := s.reps + 1
          ease := ease
          intervalDays := intervalDays
          due := now + intervalDays * msPerDay } }

/-- Fold a sequence of graded reviews through the scheduling engine; each
step carries the clock value `Date.now()` returned at that review. -/
def applySRSSeq (card : Card) (reviews : List (ℚ × Grade)) : Card :=
  reviews.foldl (fun c r => applySRS r.1 c r.2) card

/-- IndexedDB `objectStore.get(id)` on the keyed `cards` collection. -/
def getCard (cards : List Card) (cardId : String) : Option Card :=
  cards.find? (fun x => x.id == cardId)

/-- IndexedDB `objectStore.put(c)` on a store with `keyPath: "id"`:
replaces the record whose key equals `c.id`, or inserts `c` if absent. -/
def putRecord (cards : List Card) (c : Card) : List Card :=
  if cards.any (fun x => x.id == c.id) then
    cards.map (fun x => if x.id == c.id then c else x)
  else
    cards ++ [c]

/-- db.js lines 71–87, the cursor loop of `deleteDeck` over the `by_deck`
index with key `id`: each matching record is deleted and the cursor
continues; records of other decks are untouched. -/
def deleteWhereDeck (deckId : String) : List Card → List Card
  | [] => []
  | c :: rest =>
      if c.deckId = deckId then deleteWhereDeck deckId rest
      else c :: deleteWhereDeck deckId rest

/-- The effects of the `deleteDeck` readwrite transaction over
`["decks","cards"]`: delete the deck record, run the cursor loop. -/
def deleteDeckTx (s : Store) (deckId : String) : Store :=
  { decks := s.decks.filter (fun d => !(d.id == deckId))
    cards := deleteWhereDeck deckId s.cards }

/-- db.js `deleteDeck(db, id)`: the whole body runs in one transaction
(`txDone`), so either the transaction commits and every effect is applied,
or it aborts and none is. -/
def deleteDeck (commit : Bool) (s : Store) (deckId : String) : Store :=
  if commit then deleteDeckTx s deckId else s

/-- db.js lines 99–107 `defaultSRS()`; it reads `Date.now()` internally. -/
def defaultSRS (now : ℚ) : SRS :=
  { due := now
    intervalDays := 0
    ease := 2.3
    reps := 0
    lapses := 0 }

/-- db.js lines 109–126 `addCard(db, deckId, fields)`.  `now` models the
`Date.now()` reading and `newId` the `uid()` result (fresh, so the IDB
`add` does not hit a duplicate key).  The result type is `Except` so that
the spec's failure contract is statable; the source never throws for
blank fields or a dangling `deckId`. -/
def addCard (s : Store) (deckId : String) (fields : Fields) (now : ℚ) (newId : String) :
    Except DBError (Store × Card) :=
  let card : Card :=
    { id := newId
      deckId := deckId
      english := trim fields.english
      german := trim fields.german
      article := trim (fields.article.getD "")
      plural := trim (fields.plural.getD "")
      «example» := trim (fields.«example».getD "")
      notes := trim (fields.notes.getD "")
      createdAt := now
      srs := defaultSRS now }
  Except.ok ({ s with cards := s.cards ++ [card] }, card)

/-- db.js lines 134–139: the field mutations `updateCard` performs on the
fetched card before `store.put(card)`. -/
def applyFields (card : Card) (fields : Fields) : Card :=
  { card with
    english := trim fields.english
    german := trim fields.german
    article := trim (fields.article.getD "")
    plural := trim (fields.plural.getD "")
    «example» := trim (fields.«example».getD "")
    notes := trim (fields.notes.getD "") }

/-- db.js lines 128–144 `updateCard(db, cardId, fields)`: `get`, throw
"Card not found" when absent, mutate the text fields, `put` back. -/
def updateCard (s : Store) (cardId : String) (fields : Fields) :
    Except DBError (Store × Card) :=
  match getCard s.cards cardId with
  | none => Except.error DBError.notFound
  | some card =>
      let card' := applyFields card fields
      Except.ok ({ s with cards := putRecord s.cards card' }, card')

/-- db.js lines 146–150 `deleteCard(db, cardId)`: an IDB `delete(key)`
removes the record with that key and succeeds whether or not it exists. -/
def deleteCard (s : Store) (cardId : String) : Store :=
  { s with cards := s.cards.filter (fun x => !(x.id == cardId)) }

/-- db.js lines 152–156 `putCard(db, card)`: a bare IDB `put`. -/
def putCard (s : Store) (c : Card) : Store :=
  { s with cards := putRecord s.cards c }

/-- Sample card used by concrete witnesses and counterexamples. -/
def cardA : Card :=
  { id := "a", deckId := "d", english := "the house", german := "Haus"
    article := "das", plural := "Hauser", «example» := "", notes := ""
    createdAt := 0
    srs := { due := 0, intervalDays := 0, ease := 2.3, reps := 0, lapses := 0 } }

/-- The empty store. -/
def storeEmpty : Store := { decks := [], cards := [] }

/-- A store holding one deck `"d"` and the card `cardA` in it. -/
def store1 : Store :=
  { decks := [{ id := "d", name := "Starter", createdAt := 0 }]
    cards := [cardA] }

/-- A card with different text fields but the same ReviewState as `cardA`. -/
def cardB : Card :=
  { id := "b", deckId := "d", english := "the cat", german := "Katze"
    article := "die", plural := "Katzen", «example» := "", notes := ""
    createdAt := 1
    srs := { due := 0, intervalDays := 0, ease := 2.3, reps := 0, lapses := 0 } }

/-- Form fields with a blank (whitespace-only) english text. -/
def fieldsBlank : Fields :=
  { english := "  ", german := "Haus", article := none, plural := none
    «example» := none, notes := none }

/-- Form fields used by the updateCard witness. -/
def fieldsB : Fields :=
  { english := " the mouse ", german := "Maus", article := some "die"
    plural := none, «example» := some " Die Maus. ", notes := some "n" }

/-- One iteration body of the Fisher–Yates loop (app.js line 398):
`[q[i], q[j]] = [q[j], q[i]]`; out-of-range indices leave the list as is
(the loop only ever produces in-range ones). -/
def listSwap {α : Type} (l : List α) (i j : ℕ) : List α :=
  match l.get? i, l.get? j with
  | some x, some y => (l.set i y).set j x
  | _, _ => l

/-- app.js lines 396–399, `for (let i = q.length-1; i > 0; i--)`:
`fyLoop g i l` runs the iterations for indices `i, i-1, …, 1`;
`g i % (i + 1)` models `Math.floor(Math.random() * (i + 1))`, an
arbitrary member of `[0, i]`. -/
def fyLoop {α : Type} (g : ℕ → ℕ) : ℕ → List α → List α
  | 0, l => l
  | Nat.succ k, l => fyLoop g k (listSwap l (k + 1) (g (k + 1) % (k + 2)))

/-- The whole shuffle: start the loop at `q.length - 1`. -/
def shuffle {α : Type} (g : ℕ → ℕ) (l : List α) : List α :=
  fyLoop g (l.length - 1) l

/-- app.js lines 381–402 `buildStudyQueue(cards, goal)`: partition by the
internally read `Date.now()` (modelled by `now`), start from the due
cards, append fresh/not-due candidates not already present when short of
`goal`, shuffle, truncate. -/
def buildStudyQueue (g : ℕ → ℕ) (now : ℚ) (cards : List Card) (goal : ℕ) : List Card :=
  let due := cards.filter (fun c => decide (c.srs.due ≤ now))
  let fresh := cards.filter (fun c => c.srs.reps == 0 && decide (c.srs.due ≤ now))
  let notDue := cards.filter (fun c => decide (now < c.srs.due))
  let q :=
    if due.length < goal then
      due ++ (fresh ++ notDue).filter (fun c => !(due.any (fun x => x.id == c.id)))
    else due
  (shuffle g q).take goal

/-- Study mode (app.js `study.mode`: "flash" | "gender"). -/
inductive Mode where
  | flash
  | gender
  deriving DecidableEq, Repr

/-- The `study` session object of app.js lines 153–164: the in-memory
state of the study-session state machine. -/
structure Study where
  active : Bool
  mode : Mode
  deckId : String
  goal : ℕ
  done : ℕ
  queue : List Card
  current : Option Card
  flipped : Bool
  genderAnswered : Bool
  genderCorrect : Bool
  deriving DecidableEq, Repr

/-- app.js lines 555–584 `gradeCurrent(grade)`: early return when
inactive/no current card, early return in gender mode before an answer,
otherwise grade the current card via `applySRS`, persist it with
`putCard`, bump `done`, and either finish the session (`active := false`)
or pop the next card (`queue.shift()`) and reset the transient answer
state.  DOM updates are presentation and are dropped; `now` models the
`Date.now()` read inside `applySRS`. -/
def gradeCurrent (now : ℚ) (st : Study) (db : Store) (grade : Grade) : Study × Store :=
  if !st.active || st.current.isNone then (st, db)
  else if st.mode == Mode.gender && !st.genderAnswered then (st, db)
  else
    match st.current with
    | none => (st, db)
    | some c =>
        let c' := applySRS now c grade
        let db' := putCard db c'
        let done' := st.done + 1
        if st.goal ≤ done' || st.queue.length == 0 then
          ({ st with done := done', active := false }, db')
        else
          ({ st with
              done := done'
              current := st.queue.head?
              queue := st.queue.tail
              flipped := false
              genderAnswered := false
              genderCorrect := false }, db')

/-- A constant random source for witnesses. -/
def gZero : ℕ → ℕ := fun _ => 0

/-- A concrete active gender-quiz session that has not been answered. -/
def studyG : Study :=
  { active := true, mode := Mode.gender, deckId := "d", goal := 2, done := 0
    queue := [], current := some cardA, flipped := false
    genderAnswered := false, genderCorrect := false }

theorem clamp_mem (n lo hi : ℚ) (h : lo ≤ hi) : lo ≤ clamp n lo hi ∧ clamp n lo hi ≤ hi := by
  constructor
  · exact le_max_left lo (min hi n)
  · exact max_le h (min_le_left hi n)

theorem applySRS_ease_mem (now : ℚ) (c : Card) (g : Grade) :
    1.3 ≤ (applySRS now c g).srs.ease ∧ (applySRS now c g).srs.ease ≤ 3.0 := by
  have h : (1.3 : ℚ) ≤ 3.0 := by norm_num
  cases g <;> simpa [applySRS] using clamp_mem _ 1.3 3.0 h

/-- C2: For every ReviewState whose ease lies in [1.3, 3.0] and every finite
sequence of grades drawn from {Again, Good, Easy} (each applied at its own
clock reading), the ease stays within [1.3, 3.0] after every transition:
every intermediate state is covered because the sequence leading to it is
itself one of the quantified sequences. -/
theorem ease_clamped_along_sequences (c : Card)
    (h : 1.3 ≤ c.srs.ease ∧ c.srs.ease ≤ 3.0) (reviews : List (ℚ × Grade)) :
    1.3 ≤ (applySRSSeq c reviews).srs.ease ∧ (applySRSSeq c reviews).srs.ease ≤ 3.0 := by
  induction reviews generalizing c with
  | nil => simpa [applySRSSeq] using h
  | cons r rest ih =>
      have hstep := applySRS_ease_mem r.1 c r.2
      simpa [applySRSSeq] using ih (applySRS r.1 c r.2) hstep

/-- Witness for C2 at a concrete card and grade sequence. -/
theorem ease_clamped_along_sequences_witness :
    1.3 ≤ (applySRSSeq cardA [(0, Grade.again), (100, Grade.good), (200, Grade.easy)]).srs.ease ∧
      (applySRSSeq cardA [(0, Grade.again), (100, Grade.good), (200, Grade.easy)]).srs.ease ≤ 3.0 :=
  ease_clamped_along_sequences cardA (by norm_num [cardA]) _

/-- C3: a single Again grade, from any prior state and any clock reading,
yields reps = 0, intervalDays = 0.25, due = now + 0.25 days exactly,
lapses incremented by one, and ease = clamp(ease - 0.20) into [1.3, 3.0]. -/
theorem again_grade_spec (now : ℚ) (c : Card) :
    (applySRS now c Grade.again).srs.reps = 0 ∧
    (applySRS now c Grade.again).srs.intervalDays = 0.25 ∧
    (applySRS now c Grade.again).srs.due = now + 0.25 * msPerDay ∧
    (applySRS now c Grade.again).srs.lapses = c.srs.lapses + 1 ∧
    (applySRS now c Grade.again).srs.ease = clamp (c.srs.ease - 0.20) 1.3 3.0 :=
  ⟨rfl, rfl, rfl, rfl, rfl⟩

theorem mem_deleteWhereDeck {deckId : String} {c : Card} {l : List Card} :
    c ∈ deleteWhereDeck deckId l ↔ c ∈ l ∧ c.deckId ≠ deckId := by
  induction l with
  | nil => simp [deleteWhereDeck]
  | cons a t ih =>
      simp only [deleteWhereDeck]
      by_cases h : a.deckId = deckId
      · rw [if_pos h, ih, List.mem_cons]
        constructor
        · rintro ⟨hc, hne⟩
          exact ⟨Or.inr hc, hne⟩
        · rintro ⟨hca | hc, hne⟩
          · subst hca
            exact absurd h hne
          · exact ⟨hc, hne⟩
      · rw [if_neg h, List.mem_cons, List.mem_cons, ih]
        constructor
        · rintro (hca | ⟨hc, hne⟩)
          · subst hca
            exact ⟨Or.inl rfl, h⟩
          · exact ⟨Or.inr hc, hne⟩
        · rintro ⟨hca | hc, hne⟩
          · subst hca
            exact Or.inl rfl
          · exact Or.inr ⟨hc, hne⟩

/-- C1: after a committed `deleteDeck(id)` transaction no card with
`deckId == id` remains, the deck record is gone, every card of another
deck survives; and the removal is all-or-nothing: an aborted transaction
leaves the store exactly as it was. -/
theorem deleteDeck_cascade_atomic (s : Store) (deckId : String) :
    ((deleteDeck true s deckId).cards.all (fun c => !(c.deckId == deckId))) = true ∧
    ((deleteDeck true s deckId).decks.all (fun d => !(d.id == deckId))) = true ∧
    (s.cards.all
      (fun c => c.deckId == deckId || decide (c ∈ (deleteDeck true s deckId).cards))) = true ∧
    deleteDeck false s deckId = s := by
  refine ⟨?_, ?_, ?_, rfl⟩
  · simp only [deleteDeck, if_pos, deleteDeckTx, List.all_eq_true]
    intro c hc
    have := (mem_deleteWhereDeck.mp hc).2
    simpa using this
  · simp only [deleteDeck, if_pos, deleteDeckTx, List.all_eq_true]
    intro d hd
    exact (List.mem_filter.mp hd).2
  · simp only [deleteDeck, if_pos, deleteDeckTx, List.all_eq_true]
    intro c hc
    by_cases h : c.deckId = deckId
    · simp [h]
    · have hm : c ∈ deleteWhereDeck deckId s.cards := mem_deleteWhereDeck.mpr ⟨hc, h⟩
      simp [deleteDeck, deleteDeckTx, hm]

/-- C4 counterexample: with an empty store — so `"missing"` is not a live
deck — and a whitespace-only english field, `addCard` still succeeds: it
returns neither ValidationError nor NotFound, and the created card's
english text is empty after trimming. -/
theorem addCard_no_validation_cex :
    trim fieldsBlank.english = "" ∧ storeEmpty.decks = [] ∧
    addCard storeEmpty "missing" fieldsBlank 0 "c1" ≠
      Except.error DBError.validationError ∧
    addCard storeEmpty "missing" fieldsBlank 0 "c1" ≠
      Except.error DBError.notFound := by
  refine ⟨by decide, rfl, fun h => ?_, fun h => ?_⟩ <;> exact Except.noConfusion h

/-- C4 amended: `addCard` performs no validation of `english`/`german`
and no existence check on `deckId`: for every store, deck id, fields,
clock reading and fresh id it succeeds, appending a card whose text
fields are the trimmed inputs and whose ReviewState is exactly
{due = now, intervalDays = 0, ease = 2.3, reps = 0, lapses = 0}. -/
theorem addCard_always_succeeds (s : Store) (deckId : String) (f : Fields)
    (now : ℚ) (newId : String) :
    ∃ card, addCard s deckId f now newId =
        Except.ok ({ s with cards := s.cards ++ [card] }, card) ∧
      card.srs = defaultSRS now ∧
      card.srs = { due := now, intervalDays := 0, ease := 2.3, reps := 0, lapses := 0 } ∧
      card.english = trim f.english ∧ card.german = trim f.german ∧
      card.id = newId ∧ card.deckId = deckId ∧ card.createdAt = now :=
  ⟨_, rfl, rfl, rfl, rfl, rfl, rfl, rfl, rfl⟩

/-- C5 counterexample: `putCard` on a card whose id is absent from the
Cards collection does not fail and does not leave the store unchanged —
it inserts the card (IndexedDB `put` is an upsert). -/
theorem putCard_missing_id_inserts_cex :
    getCard storeEmpty.cards cardA.id = none ∧
    (putCard storeEmpty cardA).cards = [cardA] :=
  ⟨rfl, rfl⟩

theorem find?_map_put (c : Card) :
    ∀ l : List Card, l.any (fun x => x.id == c.id) = true →
      (l.map (fun x => if x.id == c.id then c else x)).find?
        (fun x => x.id == c.id) = some c
  | [], h => by simp at h
  | a :: t, h => by
      by_cases ha : (a.id == c.id) = true
      · simp only [List.map_cons, if_pos ha]
        exact List.find?_cons_of_pos _ (by simp)
      · have ht : t.any (fun x => x.id == c.id) = true := by
          simp only [List.any_cons] at h
          simpa [ha] using h
        simp only [List.map_cons, if_neg ha]
        rw [List.find?_cons_of_neg _ (by simpa using ha)]
        exact find?_map_put c t ht

theorem find?_append_put (c : Card) :
    ∀ l : List Card, l.any (fun x => x.id == c.id) = false →
      (l ++ [c]).find? (fun x => x.id == c.id) = some c
  | [], _ => by
      simp only [List.nil_append]
      exact List.find?_cons_of_pos _ (by simp)
  | a :: t, h => by
      have hsplit : (a.id == c.id) = false ∧ t.any (fun x => x.id == c.id) = false := by
        constructor
        · by_contra hne
          simp only [List.any_cons, Bool.or_eq_false_iff] at h
          exact hne h.1
        · simp only [List.any_cons, Bool.or_eq_false_iff] at h
          exact h.2
      simp only [List.cons_append]
      rw [List.find?_cons_of_neg _ (by simpa using hsplit.1)]
      exact find?_append_put c t hsplit.2

theorem filter_map_put (c : Card) (l : List Card) :
    (l.map (fun x => if x.id == c.id then c else x)).filter (fun x => !(x.id == c.id)) =
      l.filter (fun x => !(x.id == c.id)) := by
  induction l with
  | nil => rfl
  | cons a t ih =>
      by_cases ha : (a.id == c.id) = true
      · simp only [List.map_cons, if_pos ha, List.filter_cons]
        simp only [ha]
        simp only [Bool.not_true, Bool.false_eq_true, if_false, beq_self_eq_true]
        simpa using ih
      · simp only [List.map_cons, if_neg ha, List.filter_cons]
        simp only [Bool.not_eq_true] at ha
        simp only [ha]
        simp only [Bool.not_false, if_true]
        have := ih
        simp only [ha] at this ⊢
        simpa using congrArg (a :: ·) (by simpa using ih)

/-- C5 amended: `putCard(card)` never fails; it is an upsert.  After it,
looking up `card.id` yields exactly `card` (full replace when the id
existed, insert when it did not), every other card record is untouched,
and the decks collection is untouched. -/
theorem putCard_upsert (s : Store) (c : Card) :
    getCard (putCard s c).cards c.id = some c ∧
    (putCard s c).cards.filter (fun x => !(x.id == c.id)) =
      s.cards.filter (fun x => !(x.id == c.id)) ∧
    (putCard s c).decks = s.decks := by
  refine ⟨?_, ?_, rfl⟩
  · show getCard (putRecord s.cards c) c.id = some c
    unfold putRecord getCard
    by_cases h : s.cards.any (fun x => x.id == c.id) = true
    · rw [if_pos h]
      exact find?_map_put c s.cards h
    · rw [if_neg h]
      exact find?_append_put c s.cards (by simpa using h)
  · show (putRecord s.cards c).filter _ = _
    unfold putRecord
    by_cases h : s.cards.any (fun x => x.id == c.id) = true
    · rw [if_pos h]
      exact filter_map_put c s.cards
    · rw [if_neg h]
      simp [List.filter_append]

/-- C9: `updateCard(id, fields)` fails with NotFound when the id is
unknown; otherwise it replaces exactly the six text fields with the
trimmed inputs and leaves the card's `srs`, `id`, `deckId` and
`createdAt` unchanged, putting the updated record back under its key. -/
theorem updateCard_spec (s : Store) (f : Fields) (cardId : String) :
    (getCard s.cards cardId = none → updateCard s cardId f = Except.error DBError.notFound) ∧
    ∀ c, getCard s.cards cardId = some c →
      updateCard s cardId f =
        Except.ok ({ s with cards := putRecord s.cards (applyFields c f) }, applyFields c f) ∧
      (applyFields c f).srs = c.srs ∧ (applyFields c f).id = c.id ∧
      (applyFields c f).deckId = c.deckId ∧ (applyFields c f).createdAt = c.createdAt ∧
      (applyFields c f).english = trim f.english ∧ (applyFields c f).german = trim f.german ∧
      (applyFields c f).article = trim (f.article.getD "") ∧
      (applyFields c f).plural = trim (f.plural.getD "") ∧
      (applyFields c f).«example» = trim (f.«example».getD "") ∧
      (applyFields c f).notes = trim (f.notes.getD "") := by
  constructor
  · intro h
    simp [updateCard, h]
  · intro c h
    refine ⟨?_, rfl, rfl, rfl, rfl, rfl, rfl, rfl, rfl, rfl, rfl⟩
    simp [updateCard, h]

/-- Witness for C9: a concrete not-found case and a concrete update of
`cardA` in `store1`. -/
theorem updateCard_spec_witness :
    updateCard storeEmpty "a" fieldsB = Except.error DBError.notFound ∧
    updateCard store1 "a" fieldsB =
      Except.ok ({ store1 with cards := putRecord store1.cards (applyFields cardA fieldsB) },
        applyFields cardA fieldsB) ∧
    (applyFields cardA fieldsB).srs = cardA.srs :=
  ⟨(updateCard_spec storeEmpty fieldsB "a").1 rfl,
   ((updateCard_spec store1 fieldsB "a").2 cardA rfl).1,
   (((updateCard_spec store1 fieldsB "a").2 cardA rfl).2).1⟩

/-- C10: `deleteCard(id)` on an id absent from the Cards collection is an
idempotent no-op: the embedding is a total function (an IDB `delete` of a
missing key still commits), and the store comes back unchanged, both
collections intact. -/
theorem deleteCard_absent_noop (s : Store) (cardId : String)
    (h : getCard s.cards cardId = none) : deleteCard s cardId = s := by
  have hall : ∀ x ∈ s.cards, ¬((x.id == cardId) = true) := by
    simpa [getCard, List.find?_eq_none] using h
  have hfilter : s.cards.filter (fun x => !(x.id == cardId)) = s.cards := by
    rw [List.filter_eq_self]
    intro a ha
    simpa using hall a ha
  simp [deleteCard, hfilter]

/-- Witness for C10: deleting an unknown id from a populated store. -/
theorem deleteCard_absent_noop_witness : deleteCard store1 "zzz" = store1 :=
  deleteCard_absent_noop store1 "zzz" rfl

/-- C6 counterexample: `applySRS(card, grade)` does not take `now` as an
input — it reads `Date.now()` inside (app.js line 116).  Holding the
state and grade fixed, two runs at different clock readings produce
different ReviewStates, so the result is not a function of the source
signature's arguments alone. -/
theorem applySRS_reads_clock_cex :
    applySRS 0 cardA Grade.again ≠ applySRS 86400000 cardA Grade.again := by
  intro h
  have hdue := congrArg (fun x => x.srs.due) h
  simp only [applySRS, cardA, msPerDay] at hdue
  norm_num at hdue

/-- C6 amended: once the `Date.now()` reading is modelled as an explicit
value, the transition is pure and deterministic: the successor ReviewState
depends only on the prior ReviewState, the grade and that clock reading
(cards with equal `srs` get equal successor `srs`), and nothing outside
`srs` is changed. -/
theorem applySRS_pure (now : ℚ) (c c₂ : Card) (g : Grade) :
    (applySRS now c g).id = c.id ∧ (applySRS now c g).deckId = c.deckId ∧
    (applySRS now c g).english = c.english ∧ (applySRS now c g).german = c.german ∧
    (applySRS now c g).article = c.article ∧ (applySRS now c g).plural = c.plural ∧
    (applySRS now c g).«example» = c.«example» ∧ (applySRS now c g).notes = c.notes ∧
    (applySRS now c g).createdAt = c.createdAt ∧
    (c.srs = c₂.srs → (applySRS now c g).srs = (applySRS now c₂ g).srs) := by
  cases g <;>
    exact ⟨rfl, rfl, rfl, rfl, rfl, rfl, rfl, rfl, rfl, fun h => by simp [applySRS, h]⟩

/-- Witness for C6 amended: `cardA` and `cardB` differ in text fields but
share a ReviewState, and grading both Good at the same clock reading
gives the same successor ReviewState. -/
theorem applySRS_pure_witness :
    (applySRS 5 cardA Grade.good).english = cardA.english ∧
    (applySRS 5 cardA Grade.good).srs = (applySRS 5 cardB Grade.good).srs :=
  ⟨(applySRS_pure 5 cardA cardB Grade.good).2.2.1,
   (applySRS_pure 5 cardA cardB Grade.good).2.2.2.2.2.2.2.2.2 rfl⟩

theorem cons_set_perm {α : Type} :
    ∀ (l : List α) (j : ℕ) (y c : α), l.get? j = some y →
      List.Perm (y :: l.set j c) (c :: l)
  | [], j, _, _, h => by simp at h
  | a :: t, 0, y, c, h => by
      have hy : a = y := Option.some.inj h
      subst hy
      exact List.Perm.swap c a t
  | a :: t, j + 1, y, c, h => by
      have ht : t.get? j = some y := h
      have ih := cons_set_perm t j y c ht
      show List.Perm (y :: a :: t.set j c) (c :: a :: t)
      exact ((List.Perm.swap a y (t.set j c)).trans (ih.cons a)).trans (List.Perm.swap c a t)

theorem set_set_perm {α : Type} :
    ∀ (l : List α) (i j : ℕ) (x y : α), l.get? i = some x → l.get? j = some y →
      List.Perm ((l.set i y).set j x) l
  | [], _, _, _, _, hi, _ => by simp at hi
  | a :: t, 0, 0, x, y, hi, hj => by
      have hx : a = x := Option.some.inj hi
      have hy : a = y := Option.some.inj hj
      subst hx
      subst hy
      exact List.Perm.refl _
  | a :: t, 0, j + 1, x, y, hi, hj => by
      have hx : a = x := Option.some.inj hi
      subst hx
      have ht : t.get? j = some y := hj
      show List.Perm ((y :: t).set (j + 1) a) (a :: t)
      show List.Perm (y :: t.set j a) (a :: t)
      exact cons_set_perm t j y a ht
  | a :: t, i + 1, 0, x, y, hi, hj => by
      have hy : a = y := Option.some.inj hj
      subst hy
      have ht : t.get? i = some x := hi
      show List.Perm (x :: t.set i a) (a :: t)
      exact cons_set_perm t i x a ht
  | a :: t, i + 1, j + 1, x, y, hi, hj => by
      have ht : List.Perm ((t.set i y).set j x) t := set_set_perm t i j x y hi hj
      show List.Perm (a :: (t.set i y).set j x) (a :: t)
      exact ht.cons a

theorem listSwap_perm {α : Type} (l : List α) (i j : ℕ) :
    List.Perm (listSwap l i j) l := by
  unfold listSwap
  cases hi : l.get? i with
  | none => exact List.Perm.refl l
  | some x =>
      cases hj : l.get? j with
      | none => exact List.Perm.refl l
      | some y => exact set_set_perm l i j x y hi hj

theorem fyLoop_perm {α : Type} (g : ℕ → ℕ) :
    ∀ (n : ℕ) (l : List α), List.Perm (fyLoop g n l) l
  | 0, l => List.Perm.refl l
  | Nat.succ k, l =>
      (fyLoop_perm g k _).trans (listSwap_perm l (k + 1) (g (k + 1) % (k + 2)))

theorem shuffle_perm {α : Type} (g : ℕ → ℕ) (l : List α) :
    List.Perm (shuffle g l) l :=
  fyLoop_perm g (l.length - 1) l

theorem fresh_filtered_out (now : ℚ) (cards : List Card)
    (hnodup : (cards.map (fun c => c.id)).Nodup) :
    ((cards.filter (fun c => c.srs.reps == 0 && decide (c.srs.due ≤ now)) ++
        cards.filter (fun c => decide (now < c.srs.due))).filter
        (fun c => !(cards.filter (fun x => decide (x.srs.due ≤ now))).any
          (fun x => x.id == c.id)))
      = cards.filter (fun c => decide (now < c.srs.due)) := by
  rw [List.filter_append]
  have h1 : (cards.filter (fun c => c.srs.reps == 0 && decide (c.srs.due ≤ now))).filter
      (fun c => !(cards.filter (fun x => decide (x.srs.due ≤ now))).any
        (fun x => x.id == c.id)) = [] := by
    rw [List.filter_eq_nil_iff]
    intro c hc
    have hcm := List.mem_filter.mp hc
    have hdue : decide (c.srs.due ≤ now) = true := by
      have h2 := hcm.2
      simp only [Bool.and_eq_true] at h2
      exact h2.2
    have hcdue : c ∈ cards.filter (fun x => decide (x.srs.due ≤ now)) :=
      List.mem_filter.mpr ⟨hcm.1, hdue⟩
    have hany : (cards.filter (fun x => decide (x.srs.due ≤ now))).any
        (fun x => x.id == c.id) = true :=
      List.any_eq_true.mpr ⟨c, hcdue, by simp⟩
    simp [hany]
  have h2 : (cards.filter (fun c => decide (now < c.srs.due))).filter
      (fun c => !(cards.filter (fun x => decide (x.srs.due ≤ now))).any
        (fun x => x.id == c.id))
      = cards.filter (fun c => decide (now < c.srs.due)) := by
    rw [List.filter_eq_self]
    intro c hc
    have hcm := List.mem_filter.mp hc
    have hnotdue : now < c.srs.due := of_decide_eq_true hcm.2
    have hany : (cards.filter (fun x => decide (x.srs.due ≤ now))).any
        (fun x => x.id == c.id) = false := by
      cases hb : (cards.filter (fun x => decide (x.srs.due ≤ now))).any
          (fun x => x.id == c.id) with
      | false => rfl
      | true =>
          exfalso
          obtain ⟨x, hxmem, hxid⟩ := List.any_eq_true.mp hb
          have hxm := List.mem_filter.mp hxmem
          have hxeq : x.id = c.id := by simpa using hxid
          have hxc : x = c := List.inj_on_of_nodup_map hnodup hxm.1 hcm.1 hxeq
          subst hxc
          have hle : x.srs.due ≤ now := of_decide_eq_true hxm.2
          exact absurd hle (not_le.mpr hnotdue)
    simp [hany]
  rw [h1, h2, List.nil_append]

theorem due_notDue_perm (now : ℚ) (cards : List Card) :
    List.Perm (cards.filter (fun c => decide (c.srs.due ≤ now)) ++
      cards.filter (fun c => decide (now < c.srs.due))) cards := by
  have hpt : cards.filter (fun c => decide (now < c.srs.due)) =
      cards.filter (fun c => !(decide (c.srs.due ≤ now))) := by
    apply List.filter_congr
    intro c _
    by_cases h : c.srs.due ≤ now
    · rw [decide_eq_false (not_lt.mpr h), decide_eq_true h, Bool.not_true]
    · rw [decide_eq_true (not_le.mp h), decide_eq_false h, Bool.not_false]
  rw [hpt]
  exact List.filter_append_perm _ cards

/-- C7: for every card set with distinct ids and every goal ≥ 1, under any
random source and any clock reading, the built queue has length
min(goal, C), contains no duplicate card ids, and whenever at least `goal`
cards are due (`due ≤ now`), every returned card is due. -/
theorem buildStudyQueue_spec (g : ℕ → ℕ) (now : ℚ) (cards : List Card) (goal : ℕ)
    (hnodup : (cards.map (fun c => c.id)).Nodup) (hgoal1 : 1 ≤ goal) :
    (buildStudyQueue g now cards goal).length = min goal cards.length ∧
    ((buildStudyQueue g now cards goal).map (fun c => c.id)).Nodup ∧
    (goal ≤ (cards.filter (fun c => decide (c.srs.due ≤ now))).length →
      ∀ c ∈ buildStudyQueue g now cards goal, c.srs.due ≤ now) := by
  have hq : buildStudyQueue g now cards goal = (shuffle g (
      if (cards.filter (fun c => decide (c.srs.due ≤ now))).length < goal then
        cards.filter (fun c => decide (c.srs.due ≤ now)) ++
          ((cards.filter (fun c => c.srs.reps == 0 && decide (c.srs.due ≤ now)) ++
            cards.filter (fun c => decide (now < c.srs.due))).filter
            (fun c => !(cards.filter (fun x => decide (x.srs.due ≤ now))).any
              (fun x => x.id == c.id)))
      else cards.filter (fun c => decide (c.srs.due ≤ now)))).take goal := rfl
  by_cases hcase : (cards.filter (fun c => decide (c.srs.due ≤ now))).length < goal
  · rw [hq, if_pos hcase, fresh_filtered_out now cards hnodup]
    have hperm : List.Perm (shuffle g
        (cards.filter (fun c => decide (c.srs.due ≤ now)) ++
          cards.filter (fun c => decide (now < c.srs.due)))) cards :=
      (shuffle_perm g _).trans (due_notDue_perm now cards)
    refine ⟨?_, ?_, ?_⟩
    · rw [List.length_take, hperm.length_eq]
    · exact ((hperm.map (fun c => c.id)).nodup_iff.mpr hnodup).sublist
        ((List.take_sublist goal _).map _)
    · intro hdue
      exact absurd hdue (not_le.mpr hcase)
  · rw [hq, if_neg hcase]
    have hperm : List.Perm (shuffle g (cards.filter (fun c => decide (c.srs.due ≤ now))))
        (cards.filter (fun c => decide (c.srs.due ≤ now))) := shuffle_perm g _
    have hlen : (cards.filter (fun c => decide (c.srs.due ≤ now))).length ≤ cards.length :=
      List.length_filter_le _ cards
    have hgoalle : goal ≤ (cards.filter (fun c => decide (c.srs.due ≤ now))).length :=
      not_lt.mp hcase
    refine ⟨?_, ?_, ?_⟩
    · rw [List.length_take, hperm.length_eq, min_eq_left hgoalle,
        min_eq_left (le_trans hgoalle hlen)]
    · have hnodup_due : ((cards.filter (fun c => decide (c.srs.due ≤ now))).map
          (fun c => c.id)).Nodup :=
        hnodup.sublist ((List.filter_sublist cards).map _)
      exact ((hperm.map (fun c => c.id)).nodup_iff.mpr hnodup_due).sublist
        ((List.take_sublist goal _).map _)
    · intro _ c hc
      have hc2 : c ∈ shuffle g (cards.filter (fun c => decide (c.srs.due ≤ now))) :=
        List.take_subset goal _ hc
      have hc3 : c ∈ cards.filter (fun c => decide (c.srs.due ≤ now)) :=
        hperm.mem_iff.mp hc2
      exact of_decide_eq_true (List.mem_filter.mp hc3).2

/-- Witness for C7 at a two-card deck, goal 1, both cards due at clock 0. -/
theorem buildStudyQueue_spec_witness :
    (buildStudyQueue gZero 0 [cardA, cardB] 1).length = min 1 [cardA, cardB].length ∧
    ((buildStudyQueue gZero 0 [cardA, cardB] 1).map (fun c => c.id)).Nodup ∧
    (1 ≤ ([cardA, cardB].filter (fun c => decide (c.srs.due ≤ (0 : ℚ)))).length →
      ∀ c ∈ buildStudyQueue gZero 0 [cardA, cardB] 1, c.srs.due ≤ 0) :=
  buildStudyQueue_spec gZero 0 [cardA, cardB] 1 (by decide) (by decide)

/-- C8: in GenderQuiz mode, grading before any answer or reveal is a
rejected no-op: the session state (current card, queue, done counter and
flags) and the persisted store come back exactly unchanged. -/
theorem gradeCurrent_gender_unanswered_noop (now : ℚ) (st : Study) (db : Store)
    (grade : Grade) (hmode : st.mode = Mode.gender) (hans : st.genderAnswered = false) :
    gradeCurrent now st db grade = (st, db) := by
  unfold gradeCurrent
  by_cases h1 : (!st.active || st.current.isNone) = true
  · rw [if_pos h1]
  · rw [if_neg h1, if_pos (by simp [hmode, hans])]

/-- Witness for C8: a concrete unanswered gender-quiz session. -/
theorem gradeCurrent_gender_unanswered_noop_witness :
    gradeCurrent 0 studyG store1 Grade.good = (studyG, store1) :=
  gradeCurrent_gender_unanswered_noop 0 studyG store1 Grade.good rfl rfl
